import Mathlib

/-!
Shallow embedding of the rdbus wire-protocol core: the binary marshaller
(src/message.rs), the type-signature validator (src/type_sig.rs) and the four
name validators (src/names.rs). Byte buffers are `List Nat` with each entry a
byte value; machine-integer casts from the source are rendered as `% 2 ^ 8`
etc. where they matter.
-/

namespace Rdbus

/-- Enum `EncodeError` from src/message.rs. -/
inductive EncodeError
  | TooLong
deriving DecidableEq, Repr

/-- A message body buffer: the `data : Vec<u8>` field of `Message`. -/
abbrev Msg := List Nat

/-- Constant `::std::u32::MAX` as a natural number. -/
def u32MAX : Nat := 2 ^ 32 - 1

/-- Function `try_cast` from src/message.rs: checks a `usize` fits in a `u32`. -/
def try_cast (v : Nat) : Except EncodeError Nat :=
  if v > u32MAX then .error .TooLong else .ok v

/-- Method `Message::align_to` from src/message.rs: pushes `data.len() % align`
zero bytes (the source pushes `rem` zeros, where `rem = len % align`). -/
def Message.align_to (m : Msg) (align : Nat) : Msg :=
  m ++ List.replicate (m.length % align) 0

/-- Instance `impl DBusType for u32`: little-endian bytes of `i`, after `align_to 4`. -/
def u32.encode_into (i : Nat) (m : Msg) : Except EncodeError Unit × Msg :=
  let v : List Nat := [i % 2 ^ 8, i / 2 ^ 8 % 2 ^ 8, i / 2 ^ 16 % 2 ^ 8, i / 2 ^ 24 % 2 ^ 8]
  let m := Message.align_to m v.length
  (.ok (), m ++ v)

/-- Instance `impl DBusType for u64`: little-endian bytes of `i`, after `align_to 8`. -/
def u64.encode_into (i : Nat) (m : Msg) : Except EncodeError Unit × Msg :=
  let v : List Nat := [i % 2 ^ 8, i / 2 ^ 8 % 2 ^ 8, i / 2 ^ 16 % 2 ^ 8, i / 2 ^ 24 % 2 ^ 8,
    i / 2 ^ 32 % 2 ^ 8, i / 2 ^ 40 % 2 ^ 8, i / 2 ^ 48 % 2 ^ 8, i / 2 ^ 56 % 2 ^ 8]
  let m := Message.align_to m v.length
  (.ok (), m ++ v)

/-- Instance `impl DBusType for bool`: delegates to the `u32` encoding of 0 or 1. -/
def bool.encode_into (b : Bool) (m : Msg) : Except EncodeError Unit × Msg :=
  u32.encode_into (if b then 1 else 0) m

/-- Instance `impl DBusType for str`: a string is its UTF-8 byte list `s`; `self.len()`
is `s.length`. Emits the `u32` length, the bytes, then one nul. -/
def str.encode_into (s : List Nat) (m : Msg) : Except EncodeError Unit × Msg :=
  match try_cast s.length with
  | .error e => (.error e, m)
  | .ok n =>
    match u32.encode_into n m with
    | (.error e, m) => (.error e, m)
    | (.ok _, m) => (.ok (), m ++ s ++ [0])

/-- The element loop of `impl DBusType for [T]`: encode each element in turn,
stopping at the first error (the buffer keeps what was already written). -/
def encodeElems (enc : α → Msg → Except EncodeError Unit × Msg) :
    List α → Msg → Except EncodeError Unit × Msg
  | [], m => (.ok (), m)
  | x :: xs, m =>
    match enc x m with
    | (.error e, m) => (.error e, m)
    | (.ok _, m) => encodeElems enc xs m

/-- Instance `impl DBusType for [T]`: the length field written is
`::std::mem::size_of_val(self) = size_of::<T>() * len`, then each element is
encoded in sequence. `sizeOfT` is `size_of::<T>()`. -/
def slice.encode_into (sizeOfT : Nat) (enc : α → Msg → Except EncodeError Unit × Msg)
    (xs : List α) (m : Msg) : Except EncodeError Unit × Msg :=
  match try_cast (sizeOfT * xs.length) with
  | .error e => (.error e, m)
  | .ok n =>
    match u32.encode_into n m with
    | (.error e, m) => (.error e, m)
    | (.ok _, m) => encodeElems enc xs m

/-- The `[u64]` instance: `size_of::<u64>() = 8`. -/
def u64slice.encode_into : List Nat → Msg → Except EncodeError Unit × Msg :=
  slice.encode_into 8 u64.encode_into

/-- The `[bool]` instance: `size_of::<bool>() = 1`. -/
def boolslice.encode_into : List Bool → Msg → Except EncodeError Unit × Msg :=
  slice.encode_into 1 bool.encode_into

/-- Enum `TypeError` from src/type_sig.rs (`ParenUnclosed` carries the `u64` depth). -/
inductive TypeError
  | Invalid (c : Char)
  | ParenUnclosed (depth : Nat)
  | ElementRequired
  | ParenClosedBeforeOpen
deriving DecidableEq, Repr

/-- The basic type codes of `Type::from_str`: `y b n q i u x t d h s o g`. -/
def basicCode (c : Char) : Bool :=
  c = 'y' || c = 'b' || c = 'n' || c = 'q' || c = 'i' || c = 'u' || c = 'x' ||
  c = 't' || c = 'd' || c = 'h' || c = 's' || c = 'o' || c = 'g'

/-- The validation loop of `Type::from_str` (src/type_sig.rs), carrying the
`depth` counter and the `element_required` flag; at end of input the two
final checks run in source order. -/
def TypeSig.validate (depth : Nat) (er : Bool) : List Char → Except TypeError Unit
  | [] =>
    if depth ≠ 0 then .error (.ParenUnclosed depth)
    else if er then .error .ElementRequired
    else .ok ()
  | c :: rest =>
    if basicCode c then TypeSig.validate depth false rest
    else if c = 'a' then TypeSig.validate depth true rest
    else if c = '(' then TypeSig.validate (depth + 1) er rest
    else if c = ')' then
      if depth = 0 then .error .ParenClosedBeforeOpen
      else TypeSig.validate (depth - 1) false rest
    else .error (.Invalid c)

/-- Function `Type::from_str` from src/type_sig.rs (the struct `Type` only wraps the
input string, so success is rendered as `Unit`). -/
def TypeSig.from_str (v : List Char) : Except TypeError Unit :=
  TypeSig.validate 0 false v

/- ---------------- name validators (src/names.rs) ---------------- -/

/-- Is `c` in `[A-Z] | [a-z] | [0-9] | _`? (`ObjectPath` element characters.) -/
def pathElemChar (c : Nat) : Bool :=
  (65 ≤ c && c ≤ 90) || (97 ≤ c && c ≤ 122) || (48 ≤ c && c ≤ 57) || c = 95

/-- Is `c` in `[A-Z] | [a-z] | _`? -/
def alphaChar (c : Nat) : Bool :=
  (65 ≤ c && c ≤ 90) || (97 ≤ c && c ≤ 122) || c = 95

/-- Is `c` in `[0-9]`? -/
def digitChar (c : Nat) : Bool :=
  48 ≤ c && c ≤ 57

/-- The `windows(2)` loop of `ObjectPath::from_bytes`: `prev` is the previous
byte, `len` the total input length; the match arms are in source order
(`'/'`, element characters, nul, other). -/
def ObjectPath.scan (len : Nat) (prev : Nat) : List Nat → Except String Unit
  | [] => .error "path not nul terminated"
  | c :: rest =>
    if c = 47 then
      if prev = 47 then .error "path has adjacent slashes"
      else ObjectPath.scan len c rest
    else if pathElemChar c then ObjectPath.scan len c rest
    else if c = 0 then
      if prev = 47 && len ≠ 2 then .error "path ends in slash but is not root"
      else .ok ()
    else .error "invalid character in path"

/-- Function `ObjectPath::from_bytes` from src/names.rs (success is rendered as `Unit`;
the source returns the borrowed wrapper). -/
def ObjectPath.from_bytes (b : List Nat) : Except String Unit :=
  match b with
  | [] => .error "path needs at least one character"
  | b0 :: rest =>
    if (b0 :: rest).length > 255 then .error "path longer than 255"
    else if b0 ≠ 47 then .error "path must begin with slash"
    else ObjectPath.scan (b0 :: rest).length b0 rest

/-- The `windows(2)` loop of `InterfaceName::from_bytes`: arms in source order
(`'.'`, letters/underscore, digits, nul, other), carrying the period count. -/
def InterfaceName.scan (len : Nat) (prev : Nat) (periods : Nat) :
    List Nat → Except String Unit
  | [] => .error "interface name not nul terminated"
  | c :: rest =>
    if c = 46 then
      if prev = 46 then .error "interface name has adjacent dots"
      else InterfaceName.scan len c (periods + 1) rest
    else if alphaChar c then InterfaceName.scan len c periods rest
    else if digitChar c then
      if prev = 46 then .error "interface name element starts with digit"
      else InterfaceName.scan len c periods rest
    else if c = 0 then
      if prev = 46 && len ≠ 1 then .error "interface name ends in dot"
      else if periods < 1 then .error "interface name needs at least 2 elements"
      else .ok ()
    else .error "invalid character in interface name"

/-- Function `InterfaceName::from_bytes` from src/names.rs. -/
def InterfaceName.from_bytes (b : List Nat) : Except String Unit :=
  match b with
  | [] => .error "interface name needs more than 0 characters"
  | b0 :: rest =>
    if (b0 :: rest).length > 255 then .error "interface name longer than 255"
    else if b0 = 46 then .error "interface name begins with dot"
    else if alphaChar b0 then InterfaceName.scan (b0 :: rest).length b0 0 rest
    else .error "interface name begins with bad character"

/-- Is `c` in `[A-Z] | [a-z] | _ | -`? (`BusName` element characters.) -/
def busChar (c : Nat) : Bool :=
  (65 ≤ c && c ≤ 90) || (97 ≤ c && c ≤ 122) || c = 95 || c = 45

/-- The `windows(2)` loop of `BusName::from_bytes`. -/
def BusName.scan (len : Nat) (isUnique : Bool) (prev : Nat) (periods : Nat) :
    List Nat → Except String Unit
  | [] => .error "bus name not nul terminated"
  | c :: rest =>
    if c = 46 then
      if prev = 46 || prev = 58 then .error "bus name element is empty"
      else BusName.scan len isUnique c (periods + 1) rest
    else if busChar c then BusName.scan len isUnique c periods rest
    else if digitChar c then
      if prev = 46 && !isUnique then .error "bus name element starts with digit"
      else BusName.scan len isUnique c periods rest
    else if c = 0 then
      if prev = 46 && len ≠ 1 then .error "bus name ends in dot"
      else if periods < 1 then .error "bus name needs at least 2 elements"
      else .ok ()
    else .error "invalid character in bus name"

/-- Function `BusName::from_bytes` from src/names.rs. -/
def BusName.from_bytes (b : List Nat) : Except String Unit :=
  match b with
  | [] => .error "bus name needs more than 0 characters"
  | b0 :: rest =>
    if (b0 :: rest).length > 255 then .error "bus name longer than 255"
    else if b0 = 46 then .error "bus name begins with dot"
    else if busChar b0 then BusName.scan (b0 :: rest).length false b0 0 rest
    else if b0 = 58 then BusName.scan (b0 :: rest).length true b0 0 rest
    else .error "bus name begins with bad character"

/-- The `for c in b` loop of `MemberName::from_bytes`: every byte from the
start, stopping at the first nul. -/
def MemberName.scanBytes : List Nat → Except String Unit
  | [] => .error "member name not nul terminated"
  | c :: rest =>
    if pathElemChar c then MemberName.scanBytes rest
    else if c = 0 then .ok ()
    else .error "invalid character in member name"

/-- Function `MemberName::from_bytes` from src/names.rs: note the source bounds are
`len < 2` and `len > 256`, and the loop re-examines `b[0]`. -/
def MemberName.from_bytes (b : List Nat) : Except String Unit :=
  if b.length < 2 then .error "member name needs more than 0 characters"
  else if b.length > 256 then .error "member name longer than limit"
  else
    match b with
    | [] => .error "member name needs more than 0 characters"
    | b0 :: _ =>
      if alphaChar b0 then MemberName.scanBytes b
      else .error "member name begins with bad character"

/-- Maps `.ok` to `true` and `.error` to `false`: success of a validator. -/
def isOkE : Except ε α → Bool
  | .ok _ => true
  | .error _ => false

/- ---------------- spec-side grammar (for the refinement claim C4) -------- -/

/-- No two adjacent 47 (`/`) bytes in the list. -/
def noAdjacentSlash : List Nat → Bool
  | a :: b :: rest => !(a = 47 && b = 47) && noAdjacentSlash (b :: rest)
  | _ => true

/-- Stated from the spec, section 4.1: the object-path grammar. The byte
sequence must be nul-terminated (the terminator located by scanning), at most
255 bytes in total; the portion before the first nul must start with a slash,
consist of slashes and element characters `[A-Z][a-z][0-9]_`, have no two
adjacent slashes, and not end with a slash unless it is exactly the root
path. -/
def objectPathGrammar (b : List Nat) : Bool :=
  decide (b.length ≤ 255) && b.contains 0 &&
  decide ((b.takeWhile (fun c => c ≠ 0)).head? = some 47) &&
  (b.takeWhile (fun c => c ≠ 0)).all (fun c => c = 47 || pathElemChar c) &&
  noAdjacentSlash (b.takeWhile (fun c => c ≠ 0)) &&
  (decide (b.takeWhile (fun c => c ≠ 0) = [47]) ||
   decide ((b.takeWhile (fun c => c ≠ 0)).getLast? ≠ some 47))

/-- The object-path grammar amended to what the code enforces: when the
portion before the first nul is exactly the root path `/`, the total byte
length must be exactly 2 (the root path may not be followed by bytes after
its terminator). -/
def objectPathGrammarAmended (b : List Nat) : Bool :=
  objectPathGrammar b &&
  (decide (b.takeWhile (fun c => c ≠ 0) ≠ [47]) || decide (b.length = 2))

end Rdbus

namespace Rdbus

/-- C1: the claim says `encode_into` inserts exactly `(k - len % k) % k` zero
bytes of padding so the payload starts at a multiple of `k`; the code's
`Message::align_to` instead pushes `len % k` zeros, contradicting its own
doc comment ("insert padding bytes in preparation for inserting a value that
requires a specific alignment", "padding must be minimum size"). At buffer
length 1, encoding `u32` 7 inserts one zero byte (not three) and the payload
lands at offset 2, which is not a multiple of 4; reachable through the public
API by encoding the empty string (buffer length 5) and then `u32` 7, whose
payload lands at offset 6. -/
theorem C1_padding_bug :
    (u32.encode_into 7 [9]).2 = [9, 0, 7, 0, 0, 0] ∧
    Message.align_to [9] 4 = [9, 0] ∧ ¬ (4 ∣ (Message.align_to [9] 4).length) ∧
    (u32.encode_into 7 (str.encode_into [] []).2).2 = [0, 0, 0, 0, 0, 0, 7, 0, 0, 0] := by
  refine ⟨rfl, rfl, by decide, rfl⟩

/-- C2: the claim says the `u32` array length field equals the byte size of
the encoded element data for every element kind; the code writes
`size_of_val` (host memory size). For the one-element `bool` slice `[true]`
the field written is 1 while 4 bytes of encoded element data follow, so the
code diverges from the claim (which matches the spec's stated intent). -/
theorem C2_array_length_bug :
    (boolslice.encode_into [true] []).2 = [1, 0, 0, 0, 1, 0, 0, 0] ∧
    (((boolslice.encode_into [true] []).2).drop 4).length = 4 := by
  refine ⟨rfl, rfl⟩

/-- C5: `Type::from_str` accepts `""`, `"ii"`, `"aiai"`, `"(ii)(ii)"`, and
rejects `"aa"` with `ElementRequired`, `"(ii"` with `ParenUnclosed`, and
`"ii)"` with `ParenClosedBeforeOpen`. -/
theorem C5_signature_examples :
    TypeSig.from_str [] = .ok () ∧
    TypeSig.from_str ['i', 'i'] = .ok () ∧
    TypeSig.from_str ['a', 'i', 'a', 'i'] = .ok () ∧
    TypeSig.from_str ['(', 'i', 'i', ')', '(', 'i', 'i', ')'] = .ok () ∧
    TypeSig.from_str ['a', 'a'] = .error .ElementRequired ∧
    TypeSig.from_str ['(', 'i', 'i'] = .error (.ParenUnclosed 1) ∧
    TypeSig.from_str ['i', 'i', ')'] = .error .ParenClosedBeforeOpen := by
  refine ⟨rfl, rfl, rfl, rfl, rfl, rfl, rfl⟩

/-- C7: encoding `u32 24` then `bool true` into an empty buffer yields exactly
`[24,0,0,0,1,0,0,0]`; and a `bool` is always encoded via the `u32` encoding
of 0 or 1, its payload bytes being `[1,0,0,0]` or `[0,0,0,0]` and never any
other pattern. -/
theorem C7_u32_then_bool :
    (bool.encode_into true (u32.encode_into 24 []).2).2 = [24, 0, 0, 0, 1, 0, 0, 0] ∧
    ∀ (b : Bool) (m : Msg),
      bool.encode_into b m = u32.encode_into (if b then 1 else 0) m ∧
      (bool.encode_into b m).2 =
        Message.align_to m 4 ++ [if b then (1 : Nat) else 0, 0, 0, 0] := by
  refine ⟨rfl, ?_⟩
  intro b m
  refine ⟨rfl, ?_⟩
  cases b <;> simp [bool.encode_into, u32.encode_into, Message.align_to]

/-- Processing a trailing `'a'` after input accepted by the validator loop
reaches end of input with `element_required` set, producing
`ElementRequired`. -/
theorem validate_append_array_marker : ∀ (s : List Char) (d : Nat) (er : Bool),
    TypeSig.validate d er s = .ok () →
    TypeSig.validate d er (s ++ ['a']) = .error .ElementRequired := by
  intro s
  induction s with
  | nil =>
    intro d er h
    cases er with
    | false =>
      by_cases hd : d = 0
      · subst hd; rfl
      · simp [TypeSig.validate, hd] at h
    | true =>
      by_cases hd : d = 0
      · simp [TypeSig.validate, hd] at h
      · simp [TypeSig.validate, hd] at h
  | cons c s ih =>
    intro d er h
    rw [List.cons_append]
    unfold TypeSig.validate at h ⊢
    split_ifs at h ⊢ with h1 h2 h3 h4 h5
    all_goals first
      | exact ih _ _ h
      | simp at h

/-- C3 counterexample: the claim says a close-paren immediately after an
array marker yields `ElementRequired`, but `Type::from_str` accepts
`"(a)"`: the `')'` arm resets `element_required` without checking it. -/
theorem C3_counterexample : TypeSig.from_str ['(', 'a', ')'] = .ok () := rfl

/-- C3 (amended): `ElementRequired` is produced only when the input *ends*
with a dangling array marker: appending `'a'` to any accepted signature
yields `ElementRequired`; a `')'` directly after `'a'` resets the flag
instead of erroring, so `"(a)"` is accepted. -/
theorem C3_trailing_array_marker (s : List Char) (h : TypeSig.from_str s = .ok ()) :
    TypeSig.from_str (s ++ ['a']) = .error .ElementRequired :=
  validate_append_array_marker s 0 false h

/-- Witness for C3 (amended) at the accepted signature `"i"`. -/
theorem C3_witness :
    TypeSig.from_str ['i'] = .ok () ∧
    TypeSig.from_str (['i'] ++ ['a']) = .error .ElementRequired :=
  ⟨rfl, C3_trailing_array_marker ['i'] rfl⟩

set_option maxRecDepth 4000 in
/-- C6 counterexample: a 256-byte input (255 letters and a nul) is accepted by
`MemberName::from_bytes`, though the claim says every input longer than 255
bytes is rejected — the source bound is `b.len() > 256`. -/
theorem C6_counterexample :
    isOkE (MemberName.from_bytes (List.replicate 255 97 ++ [0])) = true ∧
    (List.replicate 255 97 ++ [0] : List Nat).length = 256 := by
  refine ⟨by decide, by simp⟩

/-- C6 (amended): `MemberName::from_bytes` rejects every input longer than
256 bytes (the source limit is 256, one more than the 255 of the section 4.1
table). -/
theorem C6_reject_over_256 (b : List Nat) (h : b.length > 256) :
    isOkE (MemberName.from_bytes b) = false := by
  unfold MemberName.from_bytes
  rw [if_neg (by omega : ¬ b.length < 2), if_pos h]
  rfl

/-- Witness for C6 (amended) at a 257-byte input. -/
theorem C6_witness : isOkE (MemberName.from_bytes (List.replicate 257 97)) = false :=
  C6_reject_over_256 _ (by rw [List.length_replicate]; omega)

/-- The `u32` encoding always succeeds and appends the aligned little-endian
bytes. -/
theorem u32_encode_eq (i : Nat) (m : Msg) :
    u32.encode_into i m = (.ok (), Message.align_to m 4 ++
      [i % 2 ^ 8, i / 2 ^ 8 % 2 ^ 8, i / 2 ^ 16 % 2 ^ 8, i / 2 ^ 24 % 2 ^ 8]) := rfl

/-- The `u64` encoding always succeeds and appends the aligned little-endian
bytes. -/
theorem u64_encode_eq (i : Nat) (m : Msg) :
    u64.encode_into i m = (.ok (), Message.align_to m 8 ++
      [i % 2 ^ 8, i / 2 ^ 8 % 2 ^ 8, i / 2 ^ 16 % 2 ^ 8, i / 2 ^ 24 % 2 ^ 8,
       i / 2 ^ 32 % 2 ^ 8, i / 2 ^ 40 % 2 ^ 8, i / 2 ^ 48 % 2 ^ 8, i / 2 ^ 56 % 2 ^ 8]) := rfl

/-- The `u32` encoding only appends bytes to the buffer. -/
theorem u32_encode_append_only (i : Nat) (m : Msg) :
    ∃ t, (u32.encode_into i m).2 = m ++ t := by
  refine ⟨List.replicate (m.length % 4) 0 ++
    [i % 2 ^ 8, i / 2 ^ 8 % 2 ^ 8, i / 2 ^ 16 % 2 ^ 8, i / 2 ^ 24 % 2 ^ 8], ?_⟩
  simp [u32_encode_eq, Message.align_to]

/-- The `u64` encoding only appends bytes to the buffer. -/
theorem u64_encode_append_only (i : Nat) (m : Msg) :
    ∃ t, (u64.encode_into i m).2 = m ++ t := by
  refine ⟨List.replicate (m.length % 8) 0 ++
    [i % 2 ^ 8, i / 2 ^ 8 % 2 ^ 8, i / 2 ^ 16 % 2 ^ 8, i / 2 ^ 24 % 2 ^ 8,
     i / 2 ^ 32 % 2 ^ 8, i / 2 ^ 40 % 2 ^ 8, i / 2 ^ 48 % 2 ^ 8, i / 2 ^ 56 % 2 ^ 8], ?_⟩
  simp [u64_encode_eq, Message.align_to]

/-- The `bool` encoding only appends bytes to the buffer. -/
theorem bool_encode_append_only (b : Bool) (m : Msg) :
    ∃ t, (bool.encode_into b m).2 = m ++ t :=
  u32_encode_append_only _ m

/-- The `str` encoding only appends bytes to the buffer (also on `TooLong`). -/
theorem str_encode_append_only (s : List Nat) (m : Msg) :
    ∃ t, (str.encode_into s m).2 = m ++ t := by
  unfold str.encode_into
  rcases htc : try_cast s.length with e | n
  · exact ⟨[], by simp⟩
  · simp only [u32_encode_eq]
    exact ⟨List.replicate (m.length % 4) 0 ++
      [n % 2 ^ 8, n / 2 ^ 8 % 2 ^ 8, n / 2 ^ 16 % 2 ^ 8, n / 2 ^ 24 % 2 ^ 8] ++ s ++ [0],
      by simp [Message.align_to]⟩

/-- The element loop only appends, given that each element encoder only
appends (also when it stops at an error). -/
theorem encodeElems_append_only (enc : α → Msg → Except EncodeError Unit × Msg)
    (henc : ∀ x m, ∃ t, (enc x m).2 = m ++ t) :
    ∀ (xs : List α) (m : Msg), ∃ t, (encodeElems enc xs m).2 = m ++ t := by
  intro xs
  induction xs with
  | nil => exact fun m => ⟨[], by simp [encodeElems]⟩
  | cons x xs ih =>
    intro m
    obtain ⟨t1, ht1⟩ := henc x m
    rcases hx : enc x m with ⟨r, m1⟩
    have hm1 : m1 = m ++ t1 := by rw [hx] at ht1; exact ht1
    cases r with
    | error e =>
      refine ⟨t1, ?_⟩
      unfold encodeElems
      rw [hx, ← hm1]
    | ok u =>
      obtain ⟨t2, ht2⟩ := ih m1
      refine ⟨t1 ++ t2, ?_⟩
      unfold encodeElems
      rw [hx]
      simpa [hm1, List.append_assoc] using ht2

/-- A slice encoding only appends bytes, given that the element encoder only
appends. -/
theorem slice_encode_append_only (sizeOfT : Nat)
    (enc : α → Msg → Except EncodeError Unit × Msg)
    (henc : ∀ x m, ∃ t, (enc x m).2 = m ++ t) (xs : List α) (m : Msg) :
    ∃ t, (slice.encode_into sizeOfT enc xs m).2 = m ++ t := by
  unfold slice.encode_into
  rcases htc : try_cast (sizeOfT * xs.length) with e | n
  · exact ⟨[], by simp⟩
  · simp only [u32_encode_eq]
    obtain ⟨t2, ht2⟩ := encodeElems_append_only enc henc xs
      (Message.align_to m 4 ++ [n % 2 ^ 8, n / 2 ^ 8 % 2 ^ 8, n / 2 ^ 16 % 2 ^ 8,
        n / 2 ^ 24 % 2 ^ 8])
    refine ⟨List.replicate (m.length % 4) 0 ++
      [n % 2 ^ 8, n / 2 ^ 8 % 2 ^ 8, n / 2 ^ 16 % 2 ^ 8, n / 2 ^ 24 % 2 ^ 8] ++ t2, ?_⟩
    simpa [Message.align_to, List.append_assoc] using ht2

/-- C9: every `encode_into` operation of the embedded instances (`u32`,
`u64`, `bool`, `str`, `[u64]`, `[bool]`), whether it succeeds or fails, only
appends bytes to the message buffer: the new buffer is the old buffer
followed by some suffix. -/
theorem C9_encode_append_only :
    (∀ i m, ∃ t, (u32.encode_into i m).2 = m ++ t) ∧
    (∀ i m, ∃ t, (u64.encode_into i m).2 = m ++ t) ∧
    (∀ b m, ∃ t, (bool.encode_into b m).2 = m ++ t) ∧
    (∀ s m, ∃ t, (str.encode_into s m).2 = m ++ t) ∧
    (∀ xs m, ∃ t, (u64slice.encode_into xs m).2 = m ++ t) ∧
    (∀ xs m, ∃ t, (boolslice.encode_into xs m).2 = m ++ t) :=
  ⟨u32_encode_append_only, u64_encode_append_only, bool_encode_append_only,
   str_encode_append_only,
   slice_encode_append_only 8 u64.encode_into u64_encode_append_only,
   slice_encode_append_only 1 bool.encode_into bool_encode_append_only⟩

/-- C8: when the length of a string, or the `size_of_val` byte size of a
slice, exceeds `u32::MAX`, `encode_into` fails with `TooLong` before any
alignment padding or length field is emitted: the buffer is returned
unchanged. (For `[u64]` the source measure `8 * len` also equals the byte
size of the encoded element data.) -/
theorem C8_toolong_no_write (s : List Nat) (xs : List Nat) (ys : List Bool) (m : Msg)
    (hs : s.length > u32MAX) (hxs : 8 * xs.length > u32MAX) (hys : ys.length > u32MAX) :
    str.encode_into s m = (.error .TooLong, m) ∧
    u64slice.encode_into xs m = (.error .TooLong, m) ∧
    boolslice.encode_into ys m = (.error .TooLong, m) := by
  refine ⟨?_, ?_, ?_⟩
  · unfold str.encode_into
    rw [show try_cast s.length = .error .TooLong from by simp [try_cast, hs]]
  · unfold u64slice.encode_into slice.encode_into
    rw [show try_cast (8 * xs.length) = .error .TooLong from by simp [try_cast, hxs]]
  · unfold boolslice.encode_into slice.encode_into
    rw [show try_cast (1 * ys.length) = .error .TooLong from by simp [try_cast, hys]]

/-- Witness for C8 at concrete oversized values. -/
theorem C8_witness :
    str.encode_into (List.replicate (2 ^ 32) 97) [5] = (.error .TooLong, [5]) ∧
    u64slice.encode_into (List.replicate (2 ^ 29) 0) [5] = (.error .TooLong, [5]) ∧
    boolslice.encode_into (List.replicate (2 ^ 32) true) [5] = (.error .TooLong, [5]) :=
  C8_toolong_no_write _ _ _ [5]
    (by rw [List.length_replicate]; decide)
    (by rw [List.length_replicate]; decide)
    (by rw [List.length_replicate]; decide)

/-- The object-path window scan never looks past the first nul: the bytes
after it may be replaced freely. -/
theorem objectPath_scan_stops_at_nul (len : Nat) :
    ∀ (s : List Nat) (prev : Nat) (j k : List Nat), (∀ c ∈ s, c ≠ 0) →
    ObjectPath.scan len prev (s ++ 0 :: j) = ObjectPath.scan len prev (s ++ 0 :: k) := by
  intro s
  induction s with
  | nil => intro prev j k _; rfl
  | cons c s ih =>
    intro prev j k h
    have hc : c ≠ 0 := h c (by simp)
    simp only [List.cons_append]
    unfold ObjectPath.scan
    split_ifs <;> first
      | rfl
      | exact ih _ _ _ fun d hd => h d (List.mem_cons_of_mem _ hd)

/-- The interface-name window scan never looks past the first nul. -/
theorem interfaceName_scan_stops_at_nul (len : Nat) :
    ∀ (s : List Nat) (prev periods : Nat) (j k : List Nat), (∀ c ∈ s, c ≠ 0) →
    InterfaceName.scan len prev periods (s ++ 0 :: j) =
      InterfaceName.scan len prev periods (s ++ 0 :: k) := by
  intro s
  induction s with
  | nil => intro prev periods j k _; rfl
  | cons c s ih =>
    intro prev periods j k h
    have hc : c ≠ 0 := h c (by simp)
    simp only [List.cons_append]
    unfold InterfaceName.scan
    split_ifs <;> first
      | rfl
      | exact ih _ _ _ _ fun d hd => h d (List.mem_cons_of_mem _ hd)

/-- The bus-name window scan never looks past the first nul. -/
theorem busName_scan_stops_at_nul (len : Nat) (isUnique : Bool) :
    ∀ (s : List Nat) (prev periods : Nat) (j k : List Nat), (∀ c ∈ s, c ≠ 0) →
    BusName.scan len isUnique prev periods (s ++ 0 :: j) =
      BusName.scan len isUnique prev periods (s ++ 0 :: k) := by
  intro s
  induction s with
  | nil => intro prev periods j k _; rfl
  | cons c s ih =>
    intro prev periods j k h
    have hc : c ≠ 0 := h c (by simp)
    simp only [List.cons_append]
    unfold BusName.scan
    split_ifs <;> first
      | rfl
      | exact ih _ _ _ _ fun d hd => h d (List.mem_cons_of_mem _ hd)

/-- The member-name byte loop never looks past the first nul. -/
theorem MemberName.scanBytes_stops_at_nul :
    ∀ (s : List Nat) (j k : List Nat), (∀ c ∈ s, c ≠ 0) →
    MemberName.scanBytes (s ++ 0 :: j) = MemberName.scanBytes (s ++ 0 :: k) := by
  intro s
  induction s with
  | nil => intro j k _; rfl
  | cons c s ih =>
    intro j k h
    have hc : c ≠ 0 := h c (by simp)
    simp only [List.cons_append]
    unfold MemberName.scanBytes
    split_ifs <;> first
      | rfl
      | exact ih _ _ fun d hd => h d (List.mem_cons_of_mem _ hd)

/-- C10 counterexample: the claim says bytes after the first nul are
unconstrained (beyond the length limit), but `ObjectPath::from_bytes`
feeds the total input length into the root-path trailing-slash check:
the two-byte input slash,nul is accepted while slash,nul,63 (same bytes up
to the nul, well within the length limit) is rejected. -/
theorem C10_counterexample :
    isOkE (ObjectPath.from_bytes [47, 0]) = true ∧
    isOkE (ObjectPath.from_bytes [47, 0, 63]) = false := ⟨rfl, rfl⟩

/-- C10 (amended): all four validators stop examining byte *values* at the
first nul: the verdict depends only on the bytes up to the nul and on the
total length (which feeds the length limits and, for `ObjectPath`, the
root-path check). Replacing the bytes after the first nul by any others of
the same count never changes any validator result. -/
theorem C10_nul_stop (pre j k : List Nat)
    (hpre : ∀ c ∈ pre, c ≠ 0) (hlen : j.length = k.length) :
    ObjectPath.from_bytes (pre ++ 0 :: j) = ObjectPath.from_bytes (pre ++ 0 :: k) ∧
    InterfaceName.from_bytes (pre ++ 0 :: j) = InterfaceName.from_bytes (pre ++ 0 :: k) ∧
    BusName.from_bytes (pre ++ 0 :: j) = BusName.from_bytes (pre ++ 0 :: k) ∧
    MemberName.from_bytes (pre ++ 0 :: j) = MemberName.from_bytes (pre ++ 0 :: k) := by
  have hL : (pre ++ 0 :: j).length = (pre ++ 0 :: k).length := by simp [hlen]
  refine ⟨?_, ?_, ?_, ?_⟩
  · cases pre with
    | nil =>
      unfold ObjectPath.from_bytes
      simp only [List.nil_append, List.length_cons, hlen]
      rfl
    | cons p pre =>
      unfold ObjectPath.from_bytes
      simp only [List.cons_append, List.length_cons, List.length_append, hlen]
      have hsc := objectPath_scan_stops_at_nul ((pre ++ 0 :: k).length + 1) pre p j k
        (fun d hd => hpre d (List.mem_cons_of_mem _ hd))
      simp only [List.length_append, List.length_cons, hlen] at hsc
      split_ifs <;> first | rfl | exact hsc
  · cases pre with
    | nil =>
      unfold InterfaceName.from_bytes
      simp only [List.nil_append, List.length_cons, hlen]
      rfl
    | cons p pre =>
      unfold InterfaceName.from_bytes
      simp only [List.cons_append, List.length_cons, List.length_append, hlen]
      have hsc := interfaceName_scan_stops_at_nul ((pre ++ 0 :: k).length + 1) pre p 0 j k
        (fun d hd => hpre d (List.mem_cons_of_mem _ hd))
      simp only [List.length_append, List.length_cons, hlen] at hsc
      split_ifs <;> first | rfl | exact hsc
  · cases pre with
    | nil =>
      unfold BusName.from_bytes
      simp only [List.nil_append, List.length_cons, hlen]
      rfl
    | cons p pre =>
      unfold BusName.from_bytes
      simp only [List.cons_append, List.length_cons, List.length_append, hlen]
      have hsc1 := busName_scan_stops_at_nul ((pre ++ 0 :: k).length + 1) false pre p 0 j k
        (fun d hd => hpre d (List.mem_cons_of_mem _ hd))
      have hsc2 := busName_scan_stops_at_nul ((pre ++ 0 :: k).length + 1) true pre p 0 j k
        (fun d hd => hpre d (List.mem_cons_of_mem _ hd))
      simp only [List.length_append, List.length_cons, hlen] at hsc1 hsc2
      split_ifs <;> first | rfl | exact hsc1 | exact hsc2
  · cases pre with
    | nil =>
      unfold MemberName.from_bytes
      simp only [List.nil_append, List.length_cons, hlen]
      have hsc := MemberName.scanBytes_stops_at_nul [] j k (by simp)
      simp only [List.nil_append] at hsc
      split_ifs <;> first | rfl | exact hsc
    | cons p pre =>
      unfold MemberName.from_bytes
      simp only [List.cons_append, List.length_cons, List.length_append, hlen]
      have hsc := MemberName.scanBytes_stops_at_nul (p :: pre) j k hpre
      simp only [List.cons_append] at hsc
      split_ifs <;> first | rfl | exact hsc

/-- Witness for C10 (amended): replacing the byte after the nul changes no
validator verdict. -/
theorem C10_witness :
    (ObjectPath.from_bytes [47, 97, 0, 63] = ObjectPath.from_bytes [47, 97, 0, 88]) ∧
    (InterfaceName.from_bytes [47, 97, 0, 63] = InterfaceName.from_bytes [47, 97, 0, 88]) ∧
    (BusName.from_bytes [47, 97, 0, 63] = BusName.from_bytes [47, 97, 0, 88]) ∧
    (MemberName.from_bytes [47, 97, 0, 63] = MemberName.from_bytes [47, 97, 0, 88]) :=
  C10_nul_stop [47, 97] [63] [88] (by decide) rfl

/-- A path-element character is not the nul byte. -/
theorem pathElemChar_ne_zero {c : Nat} (h : pathElemChar c = true) : c ≠ 0 := by
  simp [pathElemChar] at h
  rcases h with h | h | h | h <;> omega

/-- A path-element character is not the slash byte. -/
theorem pathElemChar_ne_slash {c : Nat} (h : pathElemChar c = true) : c ≠ 47 := by
  simp [pathElemChar] at h
  rcases h with h | h | h | h <;> omega

/-- Moving the head of a list into the default of `getLast?.getD`. -/
theorem getLast_getD_cons (a d : Nat) (l : List Nat) :
    (a :: l).getLast?.getD d = l.getLast?.getD a := by
  cases l with
  | nil => rfl
  | cons b l =>
    rw [List.getLast?_cons_cons]
    cases h : (b :: l).getLast? with
    | none => exact absurd (List.getLast?_eq_none_iff.mp h) (by simp)
    | some x => rfl

/-- The window scan of `ObjectPath::from_bytes` succeeds exactly when the
remaining bytes contain a nul, the bytes before it are slashes or element
characters with no two slashes adjacent (also to the incoming `prev` byte),
and the byte just before the nul is not a slash unless the total length is
2. -/
theorem ObjectPath.scan_ok_iff : ∀ (rest : List Nat) (len prev : Nat),
    isOkE (ObjectPath.scan len prev rest) =
      (rest.contains 0 &&
       (rest.takeWhile (fun c => c ≠ 0)).all (fun c => c = 47 || pathElemChar c) &&
       noAdjacentSlash (prev :: rest.takeWhile (fun c => c ≠ 0)) &&
       (decide ((rest.takeWhile (fun c => c ≠ 0)).getLastD prev ≠ 47) || decide (len = 2))) := by
  intro rest
  induction rest with
  | nil => intro len prev; simp [ObjectPath.scan, isOkE]
  | cons c rest ih =>
    intro len prev
    have hstep : ObjectPath.scan len prev (c :: rest) =
        (if c = 47 then
          if prev = 47 then Except.error "path has adjacent slashes"
          else ObjectPath.scan len c rest
        else if pathElemChar c then ObjectPath.scan len c rest
        else if c = 0 then
          if prev = 47 && len ≠ 2 then Except.error "path ends in slash but is not root"
          else Except.ok ()
        else Except.error "invalid character in path") := rfl
    by_cases hc47 : c = 47
    · subst hc47
      rw [hstep, if_pos (show (47 : Nat) = 47 from rfl)]
      by_cases hp : prev = 47
      · subst hp
        simp [isOkE, List.takeWhile_cons, noAdjacentSlash]
      · rw [if_neg hp, ih len 47]
        simp [List.takeWhile_cons, noAdjacentSlash, hp, getLast_getD_cons]
    · by_cases hcp : pathElemChar c = true
      · have hc0 : c ≠ 0 := pathElemChar_ne_zero hcp
        have h0c : (0 : Nat) ≠ c := fun h => hc0 h.symm
        rw [hstep, if_neg hc47, if_pos hcp, ih len c]
        simp [List.takeWhile_cons, noAdjacentSlash, hc0, h0c, hc47, hcp, getLast_getD_cons]
      · by_cases hc0 : c = 0
        · subst hc0
          rw [hstep, if_neg hc47, if_neg hcp, if_pos rfl]
          by_cases hp : prev = 47 <;> by_cases hl : len = 2 <;>
            simp [isOkE, List.takeWhile_cons, noAdjacentSlash, hp, hl]
        · have h0c : (0 : Nat) ≠ c := fun h => hc0 h.symm
          rw [hstep, if_neg hc47, if_neg hcp, if_neg hc0]
          simp [isOkE, List.takeWhile_cons, hc0, h0c, hc47, hcp]

/-- When a list contains a nul, its maximal nul-free initial segment is a
proper initial segment. -/
theorem takeWhile_ne_zero_length_lt : ∀ (l : List Nat), l.contains 0 = true →
    (l.takeWhile (fun c => c ≠ 0)).length < l.length := by
  intro l
  induction l with
  | nil => intro h; simp at h
  | cons a l ih =>
    intro h
    by_cases ha : a = 0
    · subst ha
      rw [List.takeWhile_cons, if_neg (by simp)]
      simp
    · have hpa : (decide (a ≠ 0)) = true := by simp [ha]
      have h0a : (0 : Nat) ≠ a := fun hh => ha hh.symm
      have hl : l.contains 0 = true := by
        simp only [List.contains_cons] at h
        simpa [show (0 == a) = false from by simp [h0a]] using h
      have hih := ih hl
      rw [List.takeWhile_cons, if_pos hpa, List.length_cons, List.length_cons]
      omega

/-- C4 counterexample: the byte sequence slash, nul, nul satisfies the section 4.1
object-path grammar (nul-terminated, within the length limit, pre-nul
portion exactly the root path), yet `ObjectPath::from_bytes` rejects it:
the root-path check compares the *total* length with 2. -/
theorem C4_counterexample :
    objectPathGrammar [47, 0, 0] = true ∧
    isOkE (ObjectPath.from_bytes [47, 0, 0]) = false := by
  refine ⟨by decide, rfl⟩

/-- C4 (amended): `ObjectPath::from_bytes b` succeeds iff `b` matches the
section 4.1 grammar *and*, when the pre-nul portion is exactly the root path
`/`, the total length is exactly 2 (no trailing bytes after the root path's
terminator). -/
theorem C4_path_grammar (b : List Nat) :
    isOkE (ObjectPath.from_bytes b) = objectPathGrammarAmended b := by
  cases b with
  | nil => rfl
  | cons b0 rest =>
    have hfb : ObjectPath.from_bytes (b0 :: rest) =
        (if (b0 :: rest).length > 255 then Except.error "path longer than 255"
         else if b0 ≠ 47 then Except.error "path must begin with slash"
         else ObjectPath.scan (b0 :: rest).length b0 rest) := rfl
    by_cases hlen : (b0 :: rest).length > 255
    · have h1 : ¬ ((b0 :: rest).length ≤ 255) := by omega
      rw [hfb, if_pos hlen]
      unfold objectPathGrammarAmended objectPathGrammar
      rw [decide_eq_false h1]
      simp [isOkE]
    · have hle : (b0 :: rest).length ≤ 255 := by omega
      by_cases hb0 : b0 = 47
      case neg =>
        rw [hfb, if_neg hlen, if_pos hb0]
        unfold objectPathGrammarAmended objectPathGrammar
        by_cases h0 : b0 = 0
        · subst h0
          have ht : (0 :: rest).takeWhile (fun c => (c : Nat) ≠ 0) = [] := by
            rw [List.takeWhile_cons, if_neg (by simp)]
          rw [ht]
          simp [isOkE]
        · have ht : (b0 :: rest).takeWhile (fun c => c ≠ 0) =
              b0 :: rest.takeWhile (fun c => c ≠ 0) := by
            rw [List.takeWhile_cons, if_pos (by simp [h0] : decide (b0 ≠ 0) = true)]
          rw [ht]
          have hh : decide ((b0 :: rest.takeWhile (fun c => c ≠ 0)).head? = some 47)
              = false := by simp [hb0]
          rw [hh]
          simp [isOkE]
      case pos =>
        subst hb0
        rw [hfb, if_neg hlen, if_neg (show ¬ ((47 : Nat) ≠ 47) from by simp),
          ObjectPath.scan_ok_iff]
        unfold objectPathGrammarAmended objectPathGrammar
        have htwc : (47 :: rest).takeWhile (fun c => (c : Nat) ≠ 0) =
            47 :: rest.takeWhile (fun c => c ≠ 0) := by
          rw [List.takeWhile_cons, if_pos (by simp : decide ((47 : Nat) ≠ 0) = true)]
        rw [htwc, decide_eq_true hle]
        have hcc : (47 :: rest).contains 0 = rest.contains 0 := by simp
        have hhead : decide (((47 : Nat) :: rest.takeWhile (fun c => c ≠ 0)).head? = some 47)
            = true := by simp
        have hall : ((47 : Nat) :: rest.takeWhile (fun c => c ≠ 0)).all
              (fun c => c = 47 || pathElemChar c)
            = (rest.takeWhile (fun c => c ≠ 0)).all (fun c => c = 47 || pathElemChar c) := by
          simp
        rw [hcc, hhead, hall]
        simp only [Bool.true_and]
        rcases htw : rest.takeWhile (fun c => (c : Nat) ≠ 0) with _ | ⟨t0, tws⟩
        · simp [noAdjacentSlash]
        · by_cases hcon : rest.contains 0 = true
          case neg =>
            have hcf : rest.contains 0 = false := by
              revert hcon
              cases rest.contains 0 <;> simp
            have hmem : 0 ∉ rest := by simpa using hcf
            simp [hmem]
          case pos =>
            have hlt := takeWhile_ne_zero_length_lt rest hcon
            rw [htw] at hlt
            have hlen1 : ¬ (rest.length = 1) := by
              simp only [List.length_cons] at hlt
              omega
            cases hg : (t0 :: tws).getLast? with
            | none => exact absurd (List.getLast?_eq_none_iff.mp hg) (by simp)
            | some x =>
              simp [hcon, hlen1, List.getLastD_eq_getLast?, hg, List.getLast?_cons_cons]

end Rdbus

/- The test vectors of the source's test modules (message.rs, type_sig.rs,
names.rs), re-checked against the embedding. -/
section
open Rdbus
example : (u32.encode_into 24 []).2 = [24, 0, 0, 0] := by decide
example : (bool.encode_into true [24, 0, 0, 0]).2 = [24, 0, 0, 0, 1, 0, 0, 0] := by decide
example : (u64slice.encode_into [5] []).2 = [8, 0, 0, 0, 0, 0, 0, 0, 5, 0, 0, 0, 0, 0, 0, 0] := by
  decide
example :
    (str.encode_into [102, 111, 111] []).2 = [3, 0, 0, 0, 102, 111, 111, 0] := by decide
example : (boolslice.encode_into [true] []).2 = [1, 0, 0, 0, 1, 0, 0, 0] := by decide
example : (u32.encode_into 7 [9]).2 = [9, 0, 7, 0, 0, 0] := by decide

-- type_sig tests from the source
example : isOkE (TypeSig.from_str ['a', 'a']) = false := by decide
example : TypeSig.from_str ['(', 'i', 'i'] = .error (.ParenUnclosed 1) := rfl
example : TypeSig.from_str ['i', 'i', ')'] = .error .ParenClosedBeforeOpen := rfl
example : TypeSig.from_str ['i', 'i'] = .ok () := rfl
example : TypeSig.from_str ['a', 'i', 'a', 'i'] = .ok () := rfl
example : TypeSig.from_str ['(', 'i', 'i', ')', '(', 'i', 'i', ')'] = .ok () := rfl
example : TypeSig.from_str [] = .ok () := rfl
example : TypeSig.from_str ['a', 'a'] = .error .ElementRequired := rfl
example : TypeSig.from_str ['(', 'a', ')'] = .ok () := rfl

-- t_path tests from the source (47 = slash, 0 = nul)
example : isOkE (ObjectPath.from_bytes [47, 0]) = true := by decide
example : isOkE (ObjectPath.from_bytes [0]) = false := by decide
example : isOkE (ObjectPath.from_bytes [47]) = false := by decide
example : isOkE (ObjectPath.from_bytes [47, 104, 0]) = true := by decide
example : isOkE (ObjectPath.from_bytes [47, 104, 101, 108, 108, 111, 0]) = true := by decide
example : isOkE (ObjectPath.from_bytes [47, 104, 101, 108, 108, 111, 47, 0]) = false := by decide
-- "/hello/goodbye/013/4/HA\0"
example : isOkE (ObjectPath.from_bytes [47, 104, 101, 108, 108, 111, 47, 103, 111, 111, 100,
  98, 121, 101, 47, 48, 49, 51, 47, 52, 47, 72, 65, 0]) = true := by decide
example : isOkE (ObjectPath.from_bytes [47, 104, 101, 108, 108, 111, 47, 103, 111, 111, 100,
  98, 121, 101, 47, 48, 49, 51, 47, 52, 63, 47, 72, 65, 0]) = false := by decide
example : isOkE (ObjectPath.from_bytes [47, 0, 63]) = false := by decide
example : isOkE (ObjectPath.from_bytes [47, 97, 0, 63]) = true := by decide

-- t_interface tests (46 = dot)
example : isOkE (InterfaceName.from_bytes [49, 50, 0]) = false := by decide
example : isOkE (InterfaceName.from_bytes [97, 0]) = false := by decide
example : isOkE (InterfaceName.from_bytes [97, 46, 98, 0]) = true := by decide
example : isOkE (InterfaceName.from_bytes [97, 46, 98, 46, 51, 0]) = false := by decide
example : isOkE (InterfaceName.from_bytes [65, 46, 90, 46, 120, 97, 114, 46, 121, 102, 100,
  115, 46, 100, 51, 52, 57, 48, 0]) = true := by decide
example : isOkE (InterfaceName.from_bytes [97, 46, 98, 46, 99, 0]) = true := by decide
example : isOkE (InterfaceName.from_bytes [97, 46, 98, 46, 99, 63, 0]) = false := by decide

-- t_busname tests (58 = colon, 45 = hyphen)
example : isOkE (BusName.from_bytes [97, 46, 98, 0]) = true := by decide
example : isOkE (BusName.from_bytes [97, 46, 98]) = false := by decide
example : isOkE (BusName.from_bytes [97, 0]) = false := by decide
example : isOkE (BusName.from_bytes [97, 46, 98, 63, 0]) = false := by decide
example : isOkE (BusName.from_bytes [97, 46, 98, 45, 99, 46, 97, 48, 0]) = true := by decide
example : isOkE (BusName.from_bytes [97, 46, 98, 45, 99, 46, 48, 97, 0]) = false := by decide
example : isOkE (BusName.from_bytes [58, 97, 46, 98, 45, 99, 0]) = true := by decide
example : isOkE (BusName.from_bytes [58, 97, 46, 98, 45, 99, 46, 49, 0]) = true := by decide

-- t_member_name tests
example : isOkE (MemberName.from_bytes [97, 98, 99, 49, 51, 0]) = true := by decide
example : isOkE (MemberName.from_bytes [97, 98, 99, 46, 49, 51, 0]) = false := by decide
example : isOkE (MemberName.from_bytes [49, 50, 51, 52, 97, 98, 99, 0]) = false := by decide
example : isOkE (MemberName.from_bytes [97, 98, 99]) = false := by decide
example : isOkE (MemberName.from_bytes [0]) = false := by decide
example : isOkE (MemberName.from_bytes [97, 0]) = true := by decide
end
